import Mathlib

/-!
Verification development for the BlackHoleEscape analysis engine
(src/main/main.py, src/main/connect.py).

The engine is embedded shallowly:
* Python strings are modelled as lists of characters (`Str`);
* Python `a in b` on strings (contiguous substring test) is modelled by
  `strIn`, decided through `List.IsInfix`;
* machine integers / day counts are `Int` or `Nat`; timestamps are seconds
  since an epoch (`Int`), one day being 86400 seconds, so that the Python
  `timedelta.days` field is `Int.fdiv` by 86400 (floor division);
* Python dict field access with `.get(k, default)` is modelled with
  `Option` fields together with `Option.getD`;
* Python sets of normalized names are modelled as lists: the engine only
  ever tests membership/existence over them, never iteration order;
* `list.sort(key=..., reverse=True)` is a stable descending sort; it is
  modelled by a stable insertion sort (`sortByWeeksDesc`), which produces
  the same list as any other stable sort with the same key;
* presentation-only string output (recommendation texts, weekly goal
  sentences) is not modelled; every numeric/structural field the code
  computes is.
-/

/-- Python strings as lists of characters. -/
abbrev Str := List Char

/-- String literal to `Str` conversion. -/
def str (s : String) : Str := s.data

/-- Characters that Python `str.strip()` / `str.split()` treat as
whitespace (ASCII fragment, which is all the engine ever sees). -/
def isPySpace (c : Char) : Bool :=
  c == ' ' || c == '\t' || c == '\n' || c == '\r' || c == '\x0b' || c == '\x0c'

/-- Python `s.strip()`: drop leading and trailing whitespace. -/
def pyStrip (s : Str) : Str :=
  ((s.dropWhile isPySpace).reverse.dropWhile isPySpace).reverse

/-- Worker for `pySplit`: `acc` holds the current word reversed. -/
def pySplitGo : Str → Str → List Str
  | [], acc => if acc.isEmpty then [] else [acc.reverse]
  | c :: cs, acc =>
    if isPySpace c then
      if acc.isEmpty then pySplitGo cs [] else acc.reverse :: pySplitGo cs []
    else
      pySplitGo cs (c :: acc)

/-- Python `s.split()`: split on whitespace runs, discarding empty chunks. -/
def pySplit (s : Str) : List Str := pySplitGo s []

/-- Python `" ".join(words)`. -/
def joinSpace (ws : List Str) : Str := List.intercalate [' '] ws

/-- The character map of `name.replace('_', ' ').replace('-', ' ')`
(both replacements are single-character, so they act characterwise). -/
def underscoreDashToSpace (c : Char) : Char :=
  if c == '_' || c == '-' then ' ' else c

/-- Model of `_normalize_name` inside `_calculate_circle_progress` (main.py:378):
lowercase, strip, map `_` and `-` to spaces, collapse repeated whitespace.
A falsy input (`None` or the empty string) normalizes to the empty string;
the `Option.getD` at every call site supplies `[]` for an absent field. -/
def normalizeName (s : Str) : Str :=
  joinSpace (pySplit ((pyStrip (s.map Char.toLower)).map underscoreDashToSpace))

/-- Python `a in b` on strings: contiguous substring test. -/
def strIn (a b : Str) : Bool := decide (a <:+: b)

/-- A completed project entry as built by `_get_completed_projects`
(main.py:365): the `project` sub-dict fields may each be absent. -/
structure CompletedProject where
  id : Option Int
  name : Option Str
  slug : Option Str
  final_mark : Int
deriving DecidableEq

/-- One circle (a CircleData) of `get_42_circle_structure` (main.py:138). -/
structure CircleData where
  num : Nat
  name : String
  required_projects : List Str
  description : String
  min_projects : Nat
deriving DecidableEq

/-- The static circle table of `get_42_circle_structure` (main.py:138),
listed in ascending key order (the code iterates `sorted(keys)`). -/
def circleStructure : List CircleData :=
  [ ⟨1, "Circle 1 - Fundamentals", [str "libft"],
      "Master C programming basics", 1⟩,
    ⟨2, "Circle 2 - Core Systems",
      [str "get_next_line", str "ft_printf", str "born2beroot"],
      "File I/O, formatted output, and system administration", 2⟩,
    ⟨3, "Circle 3 - Algorithms & Graphics",
      [str "pipex", str "minitalk", str "push_swap", str "fdf",
       str "fract-ol", str "so_long"],
      "Processes, signals, sorting algorithms, and 2D graphics", 3⟩,
    ⟨4, "Circle 4 - Advanced Systems",
      [str "minishell", str "Philosophers"],
      "Shell implementation and concurrent programming", 1⟩,
    ⟨5, "Circle 5 - C++ & 3D",
      [str "cpp-module-00", str "cpp-module-01", str "cpp-module-02",
       str "cpp-module-03", str "cpp-module-04", str "cub3d",
       str "netpractice", str "minirt"],
      "C++ programming and 3D graphics", 4⟩,
    ⟨6, "Circle 6 - Web & Networks",
      [str "ft_irc", str "webserv", str "inception", str "cpp-module-05",
       str "cpp-module-06", str "cpp-module-07", str "cpp-module-08",
       str "cpp-module-09"],
      "Network programming and web services", 3⟩,
    ⟨7, "Circle 7 - Specialization", [str "ft_transcendence"],
      "Full-stack web application", 1⟩ ]

/-- The value `max(circle_structure.keys())`. -/
def maxCircleNum : Nat := (circleStructure.map CircleData.num).foldr max 0

/-- The union of normalized completed names and slugs (main.py:390-392).
The Python code builds two sets and unions them; the engine only tests
membership in the union, so a list with the same members is a faithful
model. -/
def allCompleted (ps : List CompletedProject) : List Str :=
  ps.map (fun p => normalizeName (p.name.getD []))
    ++ ps.map (fun p => normalizeName (p.slug.getD []))

/-- The inner found-check of `_calculate_circle_progress` (main.py:412-414):
a catalog id matches iff some normalized completed identifier contains the
normalized catalog id or is contained in it. -/
def matchFound (A : List Str) (proj : Str) : Bool :=
  A.any (fun c => strIn (normalizeName proj) c || strIn c (normalizeName proj))

/-- The `completed_count` tally for one circle (main.py:406-418). -/
def completedCount (A : List Str) (reqs : List Str) : Nat :=
  reqs.countP (matchFound A)

/-- The stage walk of `_calculate_circle_progress` (main.py:400-429):
walk circles in ascending order carrying
`(current_circle, highest_circle_with_progress)`; a circle with progress
raises the highest marker; meeting the quorum advances the cursor past the
circle, failing it stops the walk. -/
def circleWalk (A : List Str) : List CircleData → Nat → Nat → Nat × Nat
  | [], cur, high => (cur, high)
  | c :: rest, cur, high =>
    let cnt := completedCount A c.required_projects
    let high2 := if 0 < cnt then c.num else high
    if c.min_projects ≤ cnt then circleWalk A rest (c.num + 1) high2
    else (cur, high2)

/-- The record returned by `_calculate_circle_progress` (main.py:462-473). -/
structure ProgressInfo where
  current_circle : Nat
  next_circle : Option Nat
  completed_in_current : Nat
  required_in_current : Nat
  remaining_in_current : Nat
  missing_projects : List Str
  is_on_track : Bool
  current_circle_name : String
  next_circle_name : Option String
  highest_circle_reached : Nat
deriving DecidableEq

/-- Dict lookup `circle_structure.get(n, ...)` (keys are unique). -/
def findCircle (n : Nat) : Option CircleData :=
  circleStructure.find? (fun c => c.num == n)

/-- Model of `_calculate_circle_progress` (main.py:373-473). -/
def calcCircleProgress (ps : List CompletedProject) : ProgressInfo :=
  let A := allCompleted ps
  let walked := circleWalk A circleStructure 1 1
  let cur1 := min walked.1 (walked.2 + 1)
  let cur := min cur1 maxCircleNum
  let cdata := findCircle cur
  let reqs := (cdata.map CircleData.required_projects).getD []
  let cmin := (cdata.map CircleData.min_projects).getD 1
  let completedIn := reqs.countP (matchFound A)
  let missing := reqs.filter (fun r => !(matchFound A r))
  let nextC := if cur < maxCircleNum then some (cur + 1) else none
  { current_circle := cur
    next_circle := nextC
    completed_in_current := completedIn
    required_in_current := cmin
    remaining_in_current := cmin - completedIn
    missing_projects := missing
    is_on_track := cmin ≤ completedIn
    current_circle_name :=
      ((cdata.map CircleData.name).getD ("Circle " ++ toString cur))
    next_circle_name :=
      nextC.map (fun n =>
        ((findCircle n).map CircleData.name).getD ("Circle " ++ toString n))
    highest_circle_reached := walked.2 }

/-- A raw timestamp field as seen by `_calculate_blackhole_date`
(main.py:314): the field can be falsy (`None` or empty), present but
unparsable (the `fromisoformat` call raises and is caught), or parse to an
instant, modelled as seconds since an epoch. -/
inductive RawTimestamp
  | absent
  | malformed
  | parsed (t : Int)
deriving DecidableEq

/-- Seconds per day: Python `timedelta.days` is the floor of the span
divided by this. -/
def secondsPerDay : Int := 86400

/-- The 392-day grace period constant of main.py:334. -/
def blackholePeriodDays : Int := 392

/-- Model of `_calculate_blackhole_date` (main.py:314-349): returns
`(blackhole_date, days_until, is_blackholed)`.  An explicit parsed
`blackholed_at` wins; otherwise a parsed `begin_at` plus 392 days;
otherwise `(None, None, False)`.  Parse failures fall through. -/
def calculateBlackholeDate (blackholed_at begin_at : RawTimestamp)
    (now : Int) : Option Int × Option Int × Bool :=
  match blackholed_at with
  | .parsed t =>
    let days := Int.fdiv (t - now) secondsPerDay
    (some t, some days, decide (days ≤ 0))
  | _ =>
    match begin_at with
    | .parsed s =>
      let bh := s + blackholePeriodDays * secondsPerDay
      let days := Int.fdiv (bh - now) secondsPerDay
      (some bh, some days, decide (days ≤ 0))
    | _ => (none, none, false)

/-- The `final_mark` field of a raw projects_users record: the key can be
missing (Python `.get("final_mark", 0)` yields `0`), present but `None`,
or an integer. -/
inductive MarkField
  | missing
  | null
  | val (m : Int)
deriving DecidableEq

/-- The value `project_user.get("final_mark", 0)` as an optional integer:
`none` is Python `None` (which fails the `is not None` test). -/
def effectiveMark : MarkField → Option Int
  | .missing => some 0
  | .null => none
  | .val m => some m

/-- The nested `project` dict of a raw projects_users record. -/
structure RawProjectData where
  id : Option Int
  name : Option Str
  slug : Option Str
deriving DecidableEq

/-- A raw projects_users record, with the fields `_get_completed_projects`
reads.  `status = none` covers an absent or null status (either way the
membership test fails); `project = none` covers an absent, `None` or empty
(falsy) project dict. -/
structure RawProjectUser where
  status : Option String
  final_mark : MarkField
  project : Option RawProjectData
deriving DecidableEq

/-- The body of the `_get_completed_projects` loop (main.py:354-370) for
one record: the entry it appends, if any. -/
def keepRecord (pu : RawProjectUser) : Option CompletedProject :=
  match effectiveMark pu.final_mark with
  | none => none
  | some m =>
    if (pu.status == some "finished" || pu.status == some "success")
        && decide (50 ≤ m) then
      match pu.project with
      | some pd => some ⟨pd.id, pd.name, pd.slug, m⟩
      | none => none
    else none

/-- Model of `_get_completed_projects` (main.py:351-371): keep records whose status
is finished or success with a non-null mark of at least 50 and a truthy
project dict, carrying over id, name, slug and the mark. -/
def getCompletedProjects : List RawProjectUser → List CompletedProject :=
  List.filterMap keepRecord

/-- The keep-condition exactly as claim C8 states it: status finished or
success, final_mark non-null and at least 50 — with no condition on the
project dict.  Stated from the claim, for comparison with the source
filter. -/
def claimKeepC8 (pu : RawProjectUser) : Bool :=
  (pu.status == some "finished" || pu.status == some "success")
    && (match effectiveMark pu.final_mark with
        | none => false
        | some m => decide (50 ≤ m))

/-- Model of `_calculate_risk_level` (main.py:526-549).  `days` is
`days_until_blackhole` (None possible), `level` the cursus level (None
possible, defaulted to 0), the circle and on-track flag are read from the
progress record. -/
def calculateRiskLevel (days : Option Int) (level : Option ℚ)
    (info : ProgressInfo) : String :=
  match days with
  | none => "UNKNOWN"
  | some d =>
    let lv := level.getD 0
    if d ≤ 0 then "BLACK_HOLED"
    else if d ≤ 30 then "CRITICAL"
    else if d ≤ 60 then "HIGH"
    else if d ≤ 90 then "MEDIUM"
    else if d ≤ 180 && !info.is_on_track then "LOW"
    else if lv < 3 && info.current_circle ≤ 2 && d ≤ 270 then "LOW"
    else "SAFE"

/-- First-match evaluation of an ordered rule list, as the spec describes
the risk classifier. -/
def firstRule : List (Bool × String) → String → String
  | [], dflt => dflt
  | (c, r) :: rest, dflt => if c then r else firstRule rest dflt

/-- The ordered risk rule list exactly as the spec states it (spec section
4.3), as a function of `(days_remaining, on_track, stage ordinal, level)`.
Stated from the spec, for comparison with `calculateRiskLevel`. -/
def riskRules (days : Option Int) (ontrack : Bool) (stage : Nat)
    (lv : ℚ) : List (Bool × String) :=
  [ (days.isNone, "UNKNOWN"),
    (decide (days.getD 0 ≤ 0), "BLACK_HOLED"),
    (decide (days.getD 0 ≤ 30), "CRITICAL"),
    (decide (days.getD 0 ≤ 60), "HIGH"),
    (decide (days.getD 0 ≤ 90), "MEDIUM"),
    (decide (days.getD 0 ≤ 180) && !ontrack, "LOW"),
    (decide (stage ≤ 2) && decide (lv < 3) && decide (days.getD 0 ≤ 270),
      "LOW") ]

/-- The parameter list of `_calculate_circle_progress` (main.py:373),
excluding `self`: the method takes a single positional argument. -/
def circleProgressParams : List String := ["completed_projects"]

/-- The positional argument expressions that the `POST /api/circle`
handler passes to `bhe._calculate_circle_progress` (connect.py:58). -/
def circleEndpointArgs : List String := ["completed_projects", "current_level"]

/-- Python positional-call semantics for a fixed-arity function: binding
succeeds iff the argument count equals the parameter count, otherwise the
call raises a TypeError. -/
def pyBindCall (params : List String) (args : List String) :
    Except String (List (String × String)) :=
  if args.length = params.length then .ok (params.zip args)
  else .error "TypeError"

/-- A remaining-project record as produced by
`_get_remaining_projects_for_current_circle` (main.py:513-522), with the
fields the scheduler reads. -/
structure RemProject where
  name : Str
  estimated_weeks : Nat
  estimated_hours : Nat
  difficulty : String
deriving DecidableEq

/-- A project record inside a weekly bucket (main.py:692-698). -/
structure SchedProject where
  name : Str
  estimated_hours : Nat
  difficulty : String
  total_weeks : Nat
  week_in_progress : Nat
deriving DecidableEq

/-- One weekly bucket (main.py:682-687).  The presentation-only
`weekly_goals` sentences are not modelled; every numeric field is. -/
structure WeekEntry where
  week : Nat
  focus_projects : List SchedProject
  total_hours : Nat
deriving DecidableEq

/-- Stable insertion of a project into a list sorted descending by
`estimated_weeks`: the new element goes after every element with an equal
or larger key. -/
def insertProjDesc : List RemProject → RemProject → List RemProject
  | [], p => [p]
  | q :: qs, p =>
    if p.estimated_weeks ≤ q.estimated_weeks then q :: insertProjDesc qs p
    else p :: q :: qs

/-- The sort `projects_to_schedule.sort(key=..., reverse=True)` on the
estimated-weeks key (main.py:657).  Python list.sort is stable, so this stable
insertion sort produces the identical list. -/
def sortByWeeksDesc (l : List RemProject) : List RemProject :=
  l.foldl insertProjDesc []

/-- Find-or-create the bucket of week `w` (main.py:675-688): if no entry
carries the week number, a fresh empty bucket is appended. -/
def ensureWeek (sched : List WeekEntry) (w : Nat) : List WeekEntry :=
  if sched.any (fun e => e.week == w) then sched
  else sched ++ [⟨w, [], 0⟩]

/-- First week of a project (main.py:691-699): append its record to the
bucket of week `w` and add `hours // weeks` to that bucket's total. -/
def pushProject (sched : List WeekEntry) (w : Nat) (rec : SchedProject)
    (h : Nat) : List WeekEntry :=
  sched.map (fun e =>
    if e.week == w then
      { e with focus_projects := e.focus_projects ++ [rec],
               total_hours := e.total_hours + h }
    else e)

/-- Set `week_in_progress` on the first record with the given name
(main.py:702-705; the loop breaks after the first hit). -/
def setOngoing (name : Str) (wip : Nat) : List SchedProject → List SchedProject
  | [] => []
  | p :: ps =>
    if p.name == name then { p with week_in_progress := wip } :: ps
    else p :: setOngoing name wip ps

/-- Later week of a project (main.py:701-705): mark it as ongoing inside
the bucket of week `w`. -/
def markOngoing (sched : List WeekEntry) (w : Nat) (name : Str)
    (wip : Nat) : List WeekEntry :=
  sched.map (fun e =>
    if e.week == w then { e with focus_projects := setOngoing name wip e.focus_projects }
    else e)

/-- One iteration of `for week_offset in range(project_weeks)`
(main.py:671-705). -/
def projStep (p : RemProject) (cw : Nat) (sched : List WeekEntry)
    (off : Nat) : List WeekEntry :=
  let w := cw + off
  let sched1 := ensureWeek sched w
  if off == 0 then
    pushProject sched1 w
      ⟨p.name, p.estimated_hours, p.difficulty, p.estimated_weeks, 1⟩
      (p.estimated_hours / p.estimated_weeks)
  else
    markOngoing sched1 w p.name (off + 1)

/-- Scheduling one project over its duration (main.py:671-705). -/
def scheduleProject (sched : List WeekEntry) (cw : Nat)
    (p : RemProject) : List WeekEntry :=
  (List.range p.estimated_weeks).foldl (projStep p cw) sched

/-- The main placement loop of `_create_realistic_weekly_schedule`
(main.py:659-712), carrying the week cursor, the buckets built so far and
the count of placed projects.  A project that does not fit in the weeks
left is skipped; after a placement the loop stops early once
`required_count` projects are placed or the cursor passed
`weeks_available`. -/
def schedLoop (wa req : Nat) :
    List RemProject → Nat → List WeekEntry → Nat → List WeekEntry
  | [], _, sched, _ => sched
  | p :: rest, cw, sched, cnt =>
    if wa < cw + p.estimated_weeks - 1 then
      schedLoop wa req rest cw sched cnt
    else
      let sched2 := scheduleProject sched cw p
      let cw2 := cw + p.estimated_weeks
      if req ≤ cnt + 1 || wa < cw2 then sched2
      else schedLoop wa req rest cw2 sched2 (cnt + 1)

/-- The quantity `weeks_available = math.ceil(days_remaining / 7)` for a
positive day count (main.py:649). -/
def weeksAvailable (days : Nat) : Nat := (days + 6) / 7

/-- Model of `_create_realistic_weekly_schedule` (main.py:644-738), without the
presentation-only weekly-goal sentences (main.py:714-736), which only
write the `weekly_goals` text field. -/
def createWeeklySchedule (projects : List RemProject) (days : Nat)
    (required_count : Nat) : List WeekEntry :=
  if projects.isEmpty then []
  else
    schedLoop (weeksAvailable days) required_count
      (sortByWeeksDesc (projects.take required_count)) 1 [] 0

/-- The cursor walk exactly as the spec states it (spec section 4.4 step
3 and claim C2): skip a project whose duration would overrun
`weeks_available`, otherwise record `(project, start week)` and advance
the cursor by the duration.  Stated from the spec, for comparison with
`createWeeklySchedule`. -/
def specPlace : List RemProject → Nat → Nat → List (RemProject × Nat)
  | [], _, _ => []
  | p :: rest, week, wa =>
    if wa < week + p.estimated_weeks - 1 then specPlace rest week wa
    else (p, week) :: specPlace rest (week + p.estimated_weeks) wa

/-- The buckets generated by one placed project: the start week carries
the project record (with `week_in_progress = 1`) and `hours // weeks` as
total, the remaining weeks of its duration are empty buckets. -/
def bucketBlock (p : RemProject) (s : Nat) : List WeekEntry :=
  ⟨s, [⟨p.name, p.estimated_hours, p.difficulty, p.estimated_weeks, 1⟩],
    p.estimated_hours / p.estimated_weeks⟩
    :: (List.range (p.estimated_weeks - 1)).map (fun off => ⟨s + off + 1, [], 0⟩)

/-- The full bucket list generated by a placement list. -/
def bucketsOf (pl : List (RemProject × Nat)) : List WeekEntry :=
  (pl.map (fun q => bucketBlock q.1 q.2)).flatten

/-- The buckets a partially processed project has generated after its
first `k` week offsets (a prefix of `bucketBlock`, used to reason about
the per-week fold). -/
def bucketBlockPartial (p : RemProject) (s k : Nat) : List WeekEntry :=
  ⟨s, [⟨p.name, p.estimated_hours, p.difficulty, p.estimated_weeks, 1⟩],
    p.estimated_hours / p.estimated_weeks⟩
    :: (List.range (k - 1)).map (fun off => ⟨s + off + 1, [], 0⟩)

/-- The sum `total_weeks_needed` in `generate_escape_plan` (main.py:601). -/
def totalWeeksNeeded (remaining : List RemProject) (needed : Nat) : Nat :=
  ((remaining.take needed).map RemProject.estimated_weeks).sum

/-- The sum `total_hours_needed` in `generate_escape_plan` (main.py:602). -/
def totalHoursNeeded (remaining : List RemProject) (needed : Nat) : Nat :=
  ((remaining.take needed).map RemProject.estimated_hours).sum

/-- The flag `timeline_feasible = total_weeks_needed <= weeks_available`
(main.py:613): computed from the ideal unconstrained sum, independently of
the placement loop. -/
def timelineFeasible (remaining : List RemProject) (needed : Nat)
    (wa : Nat) : Bool :=
  totalWeeksNeeded remaining needed ≤ wa

/-- The status fields `generate_escape_plan` reads after
`calculate_blackhole_status` returns (main.py:560-598). -/
structure StatusInfo where
  is_blackholed : Bool
  days_until_blackhole : Option Int
  blackhole_date : Option Int
  begin_at : Option String
  circle_info : ProgressInfo
  remaining_projects : List RemProject
deriving DecidableEq

/-- The full escape-plan record of main.py:615-637, without the
presentation-only recommendation strings. -/
structure FullPlan where
  start_date : Option String
  blackhole_date : Option Int
  days_remaining : Int
  weeks_available : Nat
  current_circle : Nat
  current_circle_name : String
  next_circle : Option Nat
  next_circle_name : Option String
  projects_completed_current : Nat
  projects_required_current : Nat
  projects_remaining_current : Nat
  total_weeks_needed : Nat
  total_hours_needed : Nat
  timeline_feasible : Bool
  required_projects : Nat
  weekly_schedule : List WeekEntry
  priority_projects : List Str
  missing_projects : List Str
deriving DecidableEq

/-- The three escape-plan shapes of `generate_escape_plan`: the fixed
emergency plan (main.py:560-573), the fixed safe-for-now plan
(main.py:581-594), and the computed full plan (main.py:615-642).  The
fixed plans carry only presentation strings, so they are bare
constructors. -/
inductive EscapePlan
  | emergency
  | safeForNow
  | full (plan : FullPlan)
deriving DecidableEq

/-- Model of `generate_escape_plan` (main.py:551-642), from the computed status
onward: emergency if already black-holed, safe-for-now if the day count is
unknown or above 1000, otherwise the full plan. -/
def generateEscapePlan (st : StatusInfo) : EscapePlan :=
  if st.is_blackholed then .emergency
  else
    match st.days_until_blackhole with
    | none => .safeForNow
    | some d =>
      if 1000 < d then .safeForNow
      else
        let projects_needed := st.circle_info.remaining_in_current
        let total_weeks := totalWeeksNeeded st.remaining_projects projects_needed
        let total_hours := totalHoursNeeded st.remaining_projects projects_needed
        let safe_days : Int := max 1 d
        let safe_needed := max 1 projects_needed
        let weekly_plan :=
          createWeeklySchedule st.remaining_projects safe_days.toNat safe_needed
        let wa := weeksAvailable safe_days.toNat
        .full
          { start_date := st.begin_at
            blackhole_date := st.blackhole_date
            days_remaining := d
            weeks_available := wa
            current_circle := st.circle_info.current_circle
            current_circle_name := st.circle_info.current_circle_name
            next_circle := st.circle_info.next_circle
            next_circle_name := st.circle_info.next_circle_name
            projects_completed_current := st.circle_info.completed_in_current
            projects_required_current := st.circle_info.required_in_current
            projects_remaining_current := projects_needed
            total_weeks_needed := total_weeks
            total_hours_needed := total_hours
            timeline_feasible := decide (total_weeks ≤ wa)
            required_projects := safe_needed
            weekly_schedule := weekly_plan
            priority_projects := st.remaining_projects.map RemProject.name
            missing_projects := st.circle_info.missing_projects }

/-- The first concrete scheduler input of claim C2: projects of 3, 1 and 2
weeks. -/
def exSched1 : List RemProject :=
  [⟨str "A", 3, 60, "hard"⟩, ⟨str "B", 1, 25, "easy"⟩,
   ⟨str "C", 2, 40, "medium"⟩]

/-- The second concrete scheduler input of claim C2: two 1-week
projects. -/
def exSched2 : List RemProject :=
  [⟨str "A", 1, 25, "easy"⟩, ⟨str "B", 1, 20, "easy"⟩]

/-- C3: the risk classifier is a pure function of
(days_remaining, on_track, stage ordinal, level) equal to first-match
evaluation of the spec's ordered rule list with default SAFE; in
particular 45 days out with stage 5, level 10 and on_track it returns
HIGH, the day tier taking precedence over the stage/level rule. -/
theorem risk_classifier_first_match :
    (∀ days level info,
      calculateRiskLevel days level info =
        firstRule
          (riskRules days info.is_on_track info.current_circle (level.getD 0))
          "SAFE")
    ∧ calculateRiskLevel (some 45) (some 10)
        ⟨5, some 6, 0, 0, 0, [], true, "", none, 5⟩ = "HIGH" := by
  constructor
  · intro days level info
    cases days with
    | none => rfl
    | some d =>
      by_cases h0 : d ≤ 0
      · simp [calculateRiskLevel, firstRule, riskRules, h0]
      by_cases h30 : d ≤ 30
      · simp [calculateRiskLevel, firstRule, riskRules, h0, h30]
      by_cases h60 : d ≤ 60
      · simp [calculateRiskLevel, firstRule, riskRules, h0, h30, h60]
      by_cases h90 : d ≤ 90
      · simp [calculateRiskLevel, firstRule, riskRules, h0, h30, h60, h90]
      by_cases h180 : d ≤ 180
      · by_cases hot : info.is_on_track
        · by_cases hs2 : info.current_circle ≤ 2 <;>
            by_cases hl3 : (level.getD 0 : ℚ) < 3 <;>
              simp [calculateRiskLevel, firstRule, riskRules, h0, h30, h60,
                h90, h180, hot, hs2, hl3, show d ≤ 270 by omega]
        · simp [calculateRiskLevel, firstRule, riskRules, h0, h30, h60, h90,
            h180, hot]
      by_cases h270 : d ≤ 270
      · by_cases hs2 : info.current_circle ≤ 2 <;>
          by_cases hl3 : (level.getD 0 : ℚ) < 3 <;>
            simp [calculateRiskLevel, firstRule, riskRules, h0, h30, h60, h90,
              h180, h270, hs2, hl3]
      · simp [calculateRiskLevel, firstRule, riskRules, h0, h30, h60, h90,
          h180, h270]
  · rfl

/-- C4: the deadline resolver uses a parsing explicit deadline directly;
otherwise a parsing start timestamp plus 392 days; otherwise it returns no
instant, no day count and is_past false, parse failures falling through
non-fatally.  In every resolved case the day count is the floor of the
span in days and is_past holds iff that count is at most 0; resolving with
no deadline and a start equal to now gives 392 days and is_past false. -/
theorem deadline_resolver_cases :
    (∀ ba now t, calculateBlackholeDate (.parsed t) ba now =
      (some t, some (Int.fdiv (t - now) secondsPerDay),
        decide (Int.fdiv (t - now) secondsPerDay ≤ 0)))
    ∧ (∀ now s, calculateBlackholeDate .absent (.parsed s) now =
      (some (s + blackholePeriodDays * secondsPerDay),
        some (Int.fdiv (s + blackholePeriodDays * secondsPerDay - now)
          secondsPerDay),
        decide (Int.fdiv (s + blackholePeriodDays * secondsPerDay - now)
          secondsPerDay ≤ 0)))
    ∧ (∀ now s, calculateBlackholeDate .malformed (.parsed s) now =
      (some (s + blackholePeriodDays * secondsPerDay),
        some (Int.fdiv (s + blackholePeriodDays * secondsPerDay - now)
          secondsPerDay),
        decide (Int.fdiv (s + blackholePeriodDays * secondsPerDay - now)
          secondsPerDay ≤ 0)))
    ∧ (∀ now, calculateBlackholeDate .absent .absent now = (none, none, false))
    ∧ (∀ now, calculateBlackholeDate .absent .malformed now = (none, none, false))
    ∧ (∀ now, calculateBlackholeDate .malformed .absent now = (none, none, false))
    ∧ (∀ now, calculateBlackholeDate .malformed .malformed now = (none, none, false))
    ∧ (∀ now, calculateBlackholeDate .absent (.parsed now) now =
      (some (now + blackholePeriodDays * secondsPerDay), some 392, false)) := by
  refine ⟨fun ba now t => rfl, fun now s => rfl, fun now s => rfl,
    fun now => rfl, fun now => rfl, fun now => rfl, fun now => rfl,
    fun now => ?_⟩
  have h : now + blackholePeriodDays * secondsPerDay - now =
      blackholePeriodDays * secondsPerDay := by ring
  simp only [calculateBlackholeDate, h]
  norm_num [blackholePeriodDays, secondsPerDay]
  exact ⟨by decide, by decide⟩

/-- C9: the POST /api/circle handler passes two positional arguments to
`_calculate_circle_progress`, whose signature takes a single one besides
`self`; under Python call semantics the binding fails with a TypeError
instead of succeeding, for every request body. -/
theorem circle_endpoint_arity_mismatch :
    pyBindCall circleProgressParams circleEndpointArgs = .error "TypeError"
    ∧ circleEndpointArgs.length ≠ circleProgressParams.length := by
  exact ⟨rfl, by decide⟩

/-- C6: a catalog identifier matches the learner's completed set iff,
after normalization, it is a substring of some completed name or slug or
vice versa, the learner side being the union of normalized names and
slugs; in particular a completed project named ft-printf matches the
catalog id ft_printf. -/
theorem fuzzy_match_iff_substring :
    (∀ ps proj,
      matchFound (allCompleted ps) proj = true ↔
        ∃ s, (∃ p ∈ ps, s = normalizeName (p.name.getD [])
                ∨ s = normalizeName (p.slug.getD []))
          ∧ (normalizeName proj <:+: s ∨ s <:+: normalizeName proj))
    ∧ matchFound
        (allCompleted
          [⟨some 1, some (str "ft-printf"), some (str "ft-printf"), 100⟩])
        (str "ft_printf") = true := by
  constructor
  · intro ps proj
    simp only [matchFound, List.any_eq_true, Bool.or_eq_true, strIn,
      decide_eq_true_eq, allCompleted, List.mem_append, List.mem_map]
    constructor
    · rintro ⟨c, hc, hinf⟩
      rcases hc with ⟨p, hp, he⟩ | ⟨p, hp, he⟩
      · exact ⟨c, ⟨p, hp, Or.inl he.symm⟩, hinf⟩
      · exact ⟨c, ⟨p, hp, Or.inr he.symm⟩, hinf⟩
    · rintro ⟨s, ⟨p, hp, he | he⟩, hinf⟩
      · exact ⟨s, Or.inl ⟨p, hp, he.symm⟩, hinf⟩
      · exact ⟨s, Or.inr ⟨p, hp, he.symm⟩, hinf⟩
  · decide

/-- C8 counterexample: a raw record with status finished and final_mark
100 but no project dict satisfies the claim's keep-condition yet is
excluded by the code, refuting the stated iff. -/
theorem completed_filter_claim_counterexample :
    claimKeepC8 ⟨some "finished", .val 100, none⟩ = true
    ∧ getCompletedProjects [⟨some "finished", .val 100, none⟩] = [] := by
  exact ⟨rfl, rfl⟩

/-- C8 amended: a raw record is kept iff its status is finished or
success, its final_mark is non-null and at least 50, AND its project dict
is truthy; kept records yield an entry carrying the project id, name,
slug and the mark, and the filter acts record by record. -/
theorem completed_filter_amended :
    (∀ pu : RawProjectUser,
      getCompletedProjects [pu] ≠ [] ↔
        (claimKeepC8 pu = true ∧ pu.project ≠ none))
    ∧ (∀ pu pd m, pu.project = some pd → effectiveMark pu.final_mark = some m →
        claimKeepC8 pu = true →
        getCompletedProjects [pu] = [⟨pd.id, pd.name, pd.slug, m⟩])
    ∧ (∀ pu pus, getCompletedProjects (pu :: pus) =
        getCompletedProjects [pu] ++ getCompletedProjects pus) := by
  refine ⟨?_, ?_, ?_⟩
  · rintro ⟨st, fm, pr⟩
    cases fm <;> cases pr <;>
      simp [getCompletedProjects, keepRecord, claimKeepC8, effectiveMark]
  · rintro ⟨st, fm, pr⟩ pd m hpr hm hk
    cases fm <;>
      simp_all [getCompletedProjects, keepRecord, claimKeepC8, effectiveMark]
  · intro pu pus
    rw [getCompletedProjects, List.filterMap_cons]
    cases h : keepRecord pu <;>
      simp [getCompletedProjects, List.filterMap_cons, h]

/-- C8 amended witness at a concrete record. -/
theorem completed_filter_amended_witness :
    getCompletedProjects
        [⟨some "finished", .val 100, some ⟨some 5, some (str "libft"), some (str "libft")⟩⟩]
      = [⟨some 5, some (str "libft"), some (str "libft"), 100⟩] :=
  completed_filter_amended.2.1
    ⟨some "finished", .val 100, some ⟨some 5, some (str "libft"), some (str "libft")⟩⟩
    ⟨some 5, some (str "libft"), some (str "libft")⟩ 100 rfl rfl (by decide)

theorem matchFound_of_empty_mem {A : List Str} (h : [] ∈ A) (proj : Str) :
    matchFound A proj = true := by
  simp only [matchFound, List.any_eq_true, Bool.or_eq_true, strIn,
    decide_eq_true_eq]
  exact ⟨[], h, Or.inr List.nil_infix⟩

/-- C10: a completed entry whose name and slug both normalize to the empty
string puts the empty string in the learner's normalized set; the empty
string is a substring of every identifier, so every gating project of
every circle counts as completed and the progress matcher reports the last
circle with on_track true and no missing projects. -/
theorem empty_normalized_matches_everything (ps : List CompletedProject)
    (h : ∃ p ∈ ps, normalizeName (p.name.getD []) = []
      ∧ normalizeName (p.slug.getD []) = []) :
    [] ∈ allCompleted ps
    ∧ (∀ proj, matchFound (allCompleted ps) proj = true)
    ∧ (calcCircleProgress ps).current_circle = 7
    ∧ (calcCircleProgress ps).is_on_track = true
    ∧ (calcCircleProgress ps).missing_projects = [] := by
  obtain ⟨p, hp, hname, -⟩ := h
  have hmem : [] ∈ allCompleted ps := by
    simp only [allCompleted, List.mem_append, List.mem_map]
    exact Or.inl ⟨p, hp, hname⟩
  have hall : ∀ proj, matchFound (allCompleted ps) proj = true :=
    matchFound_of_empty_mem hmem
  have hcntP : ∀ reqs : List Str,
      List.countP (matchFound (allCompleted ps)) reqs = reqs.length :=
    fun reqs => List.countP_eq_length.mpr (fun a _ => hall a)
  have hwalk : circleWalk (allCompleted ps) circleStructure 1 1 = (8, 7) := by
    simp [circleWalk, circleStructure, completedCount, hcntP]
  have hmax : maxCircleNum = 7 := rfl
  have hfind : findCircle 7 = some ⟨7, "Circle 7 - Specialization",
      [str "ft_transcendence"], "Full-stack web application", 1⟩ := rfl
  refine ⟨hmem, hall, ?_, ?_, ?_⟩ <;>
    simp [calcCircleProgress, hwalk, hmax, hfind, hcntP, hall,
      List.filter_eq_nil_iff]

/-- C10 witness: a single completed entry with absent name and slug drives
the progress matcher to the last circle. -/
theorem empty_normalized_matches_everything_witness :
    (calcCircleProgress [⟨some 1, none, none, 100⟩]).current_circle = 7
    ∧ (calcCircleProgress [⟨some 1, none, none, 100⟩]).is_on_track = true
    ∧ (calcCircleProgress [⟨some 1, none, none, 100⟩]).missing_projects = [] := by
  have h := empty_normalized_matches_everything [⟨some 1, none, none, 100⟩]
    ⟨⟨some 1, none, none, 100⟩, by decide, rfl, rfl⟩
  exact ⟨h.2.2.1, h.2.2.2.1, h.2.2.2.2⟩

theorem matchFound_mono {A B : List Str} (hsub : ∀ s ∈ A, s ∈ B) {proj : Str}
    (h : matchFound A proj = true) : matchFound B proj = true := by
  simp only [matchFound, List.any_eq_true] at h ⊢
  obtain ⟨c, hc, hcc⟩ := h
  exact ⟨c, hsub c hc, hcc⟩

theorem completedCount_mono {A B : List Str} (hsub : ∀ s ∈ A, s ∈ B)
    (reqs : List Str) : completedCount A reqs ≤ completedCount B reqs :=
  List.countP_mono_left (fun _ _ h => matchFound_mono hsub h)

theorem circleWalk_bounds (A : List Str) :
    ∀ (cs : List CircleData) (cur high : Nat),
      (∀ c ∈ cs, cur ≤ c.num) → (∀ c ∈ cs, high ≤ c.num) →
      List.Pairwise (fun a b : CircleData => a.num < b.num) cs →
      cur ≤ (circleWalk A cs cur high).1 ∧ high ≤ (circleWalk A cs cur high).2
  | [], cur, high, _, _, _ => ⟨Nat.le_refl _, Nat.le_refl _⟩
  | c :: rest, cur, high, hcur, hhigh, hpw => by
    have hcurc : cur ≤ c.num := hcur c (List.mem_cons_self c rest)
    have hhighc : high ≤ c.num := hhigh c (List.mem_cons_self c rest)
    have hpwrest := (List.pairwise_cons.mp hpw).2
    have hnum : ∀ c2 ∈ rest, c.num < c2.num :=
      (List.pairwise_cons.mp hpw).1
    simp only [circleWalk]
    set cnt := completedCount A c.required_projects with hcnt
    set high2 := if 0 < cnt then c.num else high with hh2
    have hh2a : high ≤ high2 := by
      rw [hh2]; split <;> omega
    have hh2b : high2 ≤ c.num := by
      rw [hh2]; split <;> omega
    by_cases hq : c.min_projects ≤ cnt
    · rw [if_pos hq]
      have := circleWalk_bounds A rest (c.num + 1) high2
        (fun c2 h2 => by have := hnum c2 h2; omega)
        (fun c2 h2 => by have := hnum c2 h2; omega)
        hpwrest
      exact ⟨by omega, by omega⟩
    · rw [if_neg hq]
      exact ⟨Nat.le_refl _, hh2a⟩

theorem circleWalk_mono {A B : List Str} (hsub : ∀ s ∈ A, s ∈ B) (M : Nat) :
    ∀ (cs : List CircleData) (cur high high' : Nat),
      high ≤ high' →
      (∀ c ∈ cs, cur ≤ c.num) →
      (∀ c ∈ cs, high' ≤ c.num) →
      List.Pairwise (fun a b : CircleData => a.num < b.num) cs →
      min (min (circleWalk A cs cur high).1 ((circleWalk A cs cur high).2 + 1)) M
        ≤ min (min (circleWalk B cs cur high').1
            ((circleWalk B cs cur high').2 + 1)) M
  | [], cur, high, high', hh, _, _, _ => by
    simp only [circleWalk]; omega
  | c :: rest, cur, high, high', hh, hcur, hhigh, hpw => by
    have hcurc : cur ≤ c.num := hcur c (List.mem_cons_self c rest)
    have hhighc : high' ≤ c.num := hhigh c (List.mem_cons_self c rest)
    have hpwrest := (List.pairwise_cons.mp hpw).2
    have hnum : ∀ c2 ∈ rest, c.num < c2.num :=
      (List.pairwise_cons.mp hpw).1
    have hcnt : completedCount A c.required_projects
        ≤ completedCount B c.required_projects := completedCount_mono hsub _
    simp only [circleWalk]
    set cntA := completedCount A c.required_projects with hca
    set cntB := completedCount B c.required_projects with hcb
    set high2 := if 0 < cntA then c.num else high with hh2
    set high2' := if 0 < cntB then c.num else high' with hh2p
    have hh2le : high2 ≤ high2' := by
      rw [hh2, hh2p]; split <;> split <;> omega
    have hh2pb : high2' ≤ c.num := by
      rw [hh2p]; split <;> omega
    by_cases hqA : c.min_projects ≤ cntA
    · have hqB : c.min_projects ≤ cntB := Nat.le_trans hqA hcnt
      rw [if_pos hqA, if_pos hqB]
      exact circleWalk_mono hsub M rest (c.num + 1) high2 high2' hh2le
        (fun c2 h2 => by have := hnum c2 h2; omega)
        (fun c2 h2 => by have := hnum c2 h2; omega)
        hpwrest
    · rw [if_neg hqA]
      by_cases hqB : c.min_projects ≤ cntB
      · rw [if_pos hqB]
        have hbd := circleWalk_bounds B rest (c.num + 1) high2'
          (fun c2 h2 => by have := hnum c2 h2; omega)
          (fun c2 h2 => by have := hnum c2 h2; omega)
          hpwrest
        omega
      · rw [if_neg hqB]
        simp only [circleWalk]
        omega

/-- C5: adding a completed project never regresses the computed current
circle: for every completed list and every extra entry, the current circle
from the enlarged list is at least the one from the original list. -/
theorem current_circle_monotone (ps : List CompletedProject)
    (p : CompletedProject) :
    (calcCircleProgress ps).current_circle
      ≤ (calcCircleProgress (ps ++ [p])).current_circle := by
  have hsub : ∀ s ∈ allCompleted ps, s ∈ allCompleted (ps ++ [p]) := by
    intro s hs
    simp only [allCompleted, List.mem_append, List.mem_map] at hs ⊢
    rcases hs with ⟨q, hq, he⟩ | ⟨q, hq, he⟩
    · exact Or.inl ⟨q, Or.inl hq, he⟩
    · exact Or.inr ⟨q, Or.inl hq, he⟩
  simp only [calcCircleProgress]
  exact circleWalk_mono hsub maxCircleNum circleStructure 1 1 1
    (Nat.le_refl 1)
    (by decide)
    (by decide)
    (by decide)

/-- C1: at the failing input of a single 2-week 40-hour project with 28
days left, the schedule's buckets sum to 20 hours for the project, not its
40 estimate (only the first week receives hours // weeks), and no bucket
records the project as continuing: the week-2 bucket is empty and every
recorded week_in_progress equals 1, contradicting the stated invariant. -/
theorem weekly_schedule_hours_and_ongoing_bug :
    createWeeklySchedule [⟨str "libft", 2, 40, "medium"⟩] 28 1
      = [⟨1, [⟨str "libft", 40, "medium", 2, 1⟩], 20⟩, ⟨2, [], 0⟩]
    ∧ ((createWeeklySchedule [⟨str "libft", 2, 40, "medium"⟩] 28 1).map
        WeekEntry.total_hours).sum = 20
    ∧ (20 : Nat) ≠ 40
    ∧ (∀ e ∈ createWeeklySchedule [⟨str "libft", 2, 40, "medium"⟩] 28 1,
        ∀ q ∈ e.focus_projects, q.week_in_progress = 1) := by
  refine ⟨by decide, by decide, by decide, by decide⟩

/-- C7: the plan assembler branches in priority order: an already-passed
deadline yields the fixed emergency plan with no schedule; otherwise an
unknown or over-1000-days deadline yields the fixed safe-for-now plan with
no schedule; otherwise the full plan carries the deadline, the circle
progress, the weekly schedule and the feasibility flag. -/
theorem escape_plan_branch_priority :
    (∀ st : StatusInfo, st.is_blackholed = true →
      generateEscapePlan st = .emergency)
    ∧ (∀ st : StatusInfo, st.is_blackholed = false →
        st.days_until_blackhole = none → generateEscapePlan st = .safeForNow)
    ∧ (∀ (st : StatusInfo) (d : Int), st.is_blackholed = false →
        st.days_until_blackhole = some d → 1000 < d →
        generateEscapePlan st = .safeForNow)
    ∧ (∀ (st : StatusInfo) (d : Int), st.is_blackholed = false →
        st.days_until_blackhole = some d → d ≤ 1000 →
        ∃ plan, generateEscapePlan st = .full plan
          ∧ plan.days_remaining = d
          ∧ plan.blackhole_date = st.blackhole_date
          ∧ plan.current_circle = st.circle_info.current_circle
          ∧ plan.projects_completed_current
              = st.circle_info.completed_in_current
          ∧ plan.missing_projects = st.circle_info.missing_projects
          ∧ plan.weekly_schedule =
              createWeeklySchedule st.remaining_projects (max 1 d).toNat
                (max 1 st.circle_info.remaining_in_current)
          ∧ plan.weeks_available = weeksAvailable (max 1 d).toNat
          ∧ plan.timeline_feasible =
              timelineFeasible st.remaining_projects
                st.circle_info.remaining_in_current
                (weeksAvailable (max 1 d).toNat)) := by
  refine ⟨?_, ?_, ?_, ?_⟩
  · intro st h
    simp [generateEscapePlan, h]
  · intro st h hd
    simp [generateEscapePlan, h, hd]
  · intro st d h hd hgt
    simp [generateEscapePlan, h, hd, hgt]
  · intro st d h hd hle
    refine ⟨⟨st.begin_at, st.blackhole_date, d, weeksAvailable (max 1 d).toNat,
      st.circle_info.current_circle, st.circle_info.current_circle_name,
      st.circle_info.next_circle, st.circle_info.next_circle_name,
      st.circle_info.completed_in_current, st.circle_info.required_in_current,
      st.circle_info.remaining_in_current,
      totalWeeksNeeded st.remaining_projects
        st.circle_info.remaining_in_current,
      totalHoursNeeded st.remaining_projects
        st.circle_info.remaining_in_current,
      decide (totalWeeksNeeded st.remaining_projects
        st.circle_info.remaining_in_current ≤ weeksAvailable (max 1 d).toNat),
      max 1 st.circle_info.remaining_in_current,
      createWeeklySchedule st.remaining_projects (max 1 d).toNat
        (max 1 st.circle_info.remaining_in_current),
      st.remaining_projects.map RemProject.name,
      st.circle_info.missing_projects⟩,
      ?_, rfl, rfl, rfl, rfl, rfl, rfl, rfl, rfl⟩
    simp [generateEscapePlan, h, hd, Int.not_lt.mpr hle]

/-- C7 witness: the full-plan branch at a concrete status. -/
theorem escape_plan_branch_priority_witness :
    ∃ plan,
      generateEscapePlan
          ⟨false, some 10, some 1000000, some "2024-01-01",
            ⟨1, some 2, 0, 1, 1, [str "libft"], false, "Circle 1", none, 1⟩,
            [⟨str "libft", 2, 40, "medium"⟩]⟩ = .full plan
        ∧ plan.days_remaining = 10
        ∧ plan.blackhole_date = some 1000000
        ∧ plan.current_circle = 1
        ∧ plan.projects_completed_current = 0
        ∧ plan.missing_projects = [str "libft"]
        ∧ plan.weekly_schedule =
            createWeeklySchedule [⟨str "libft", 2, 40, "medium"⟩]
              (max 1 (10 : Int)).toNat (max 1 1)
        ∧ plan.weeks_available = weeksAvailable (max 1 (10 : Int)).toNat
        ∧ plan.timeline_feasible =
            timelineFeasible [⟨str "libft", 2, 40, "medium"⟩] 1
              (weeksAvailable (max 1 (10 : Int)).toNat) :=
  escape_plan_branch_priority.2.2.2
    ⟨false, some 10, some 1000000, some "2024-01-01",
      ⟨1, some 2, 0, 1, 1, [str "libft"], false, "Circle 1", none, 1⟩,
      [⟨str "libft", 2, 40, "medium"⟩]⟩ 10 rfl rfl (by decide)

theorem mem_insertProjDesc {a p : RemProject} :
    ∀ {l : List RemProject}, a ∈ insertProjDesc l p → a = p ∨ a ∈ l
  | [], h => by simpa [insertProjDesc] using h
  | q :: qs, h => by
    by_cases hle : p.estimated_weeks ≤ q.estimated_weeks
    · rw [insertProjDesc, if_pos hle] at h
      rcases List.mem_cons.mp h with h1 | h2
      · exact Or.inr (h1 ▸ List.mem_cons_self q qs)
      · rcases mem_insertProjDesc h2 with h3 | h4
        · exact Or.inl h3
        · exact Or.inr (List.mem_cons_of_mem q h4)
    · rw [insertProjDesc, if_neg hle] at h
      rcases List.mem_cons.mp h with h1 | h2
      · exact Or.inl h1
      · exact Or.inr h2

theorem length_insertProjDesc (p : RemProject) :
    ∀ (l : List RemProject), (insertProjDesc l p).length = l.length + 1
  | [] => rfl
  | q :: qs => by
    by_cases hle : p.estimated_weeks ≤ q.estimated_weeks
    · rw [insertProjDesc, if_pos hle]
      simp [length_insertProjDesc p qs]
    · rw [insertProjDesc, if_neg hle]
      simp

theorem sortFold_mem {a : RemProject} :
    ∀ (l acc : List RemProject), a ∈ l.foldl insertProjDesc acc →
      a ∈ acc ∨ a ∈ l
  | [], acc, h => Or.inl h
  | q :: qs, acc, h => by
    rcases sortFold_mem qs (insertProjDesc acc q) h with h1 | h2
    · rcases mem_insertProjDesc h1 with h3 | h4
      · exact Or.inr (h3 ▸ List.mem_cons_self q qs)
      · exact Or.inl h4
    · exact Or.inr (List.mem_cons_of_mem q h2)

theorem sortFold_length :
    ∀ (l acc : List RemProject),
      (l.foldl insertProjDesc acc).length = acc.length + l.length
  | [], acc => rfl
  | q :: qs, acc => by
    rw [List.foldl_cons, sortFold_length qs, length_insertProjDesc]
    simp
    omega

theorem sortByWeeksDesc_mem {a : RemProject} {l : List RemProject}
    (h : a ∈ sortByWeeksDesc l) : a ∈ l := by
  rcases sortFold_mem l [] h with h1 | h2
  · cases h1
  · exact h2

theorem sortByWeeksDesc_length (l : List RemProject) :
    (sortByWeeksDesc l).length = l.length := by
  rw [sortByWeeksDesc, sortFold_length]; simp

theorem bucketBlock_week_lt {p : RemProject} {s : Nat}
    (hd : 1 ≤ p.estimated_weeks) :
    ∀ e ∈ bucketBlock p s, s ≤ e.week ∧ e.week < s + p.estimated_weeks := by
  intro e he
  rcases List.mem_cons.mp he with h1 | h2
  · subst h1; simp; omega
  · simp only [List.mem_map, List.mem_range] at h2
    obtain ⟨off, hoff, he2⟩ := h2
    subst he2
    simp
    omega

theorem specPlace_nil_of_overflow {wa : Nat} :
    ∀ (ps : List RemProject) (week : Nat),
      (∀ p ∈ ps, 1 ≤ p.estimated_weeks) → wa < week →
      specPlace ps week wa = []
  | [], week, _, _ => rfl
  | p :: rest, week, hd, hlt => by
    have hd1 : 1 ≤ p.estimated_weeks := hd p (List.mem_cons_self p rest)
    rw [specPlace, if_pos (by omega)]
    exact specPlace_nil_of_overflow rest week
      (fun q hq => hd q (List.mem_cons_of_mem p hq)) hlt

theorem bucketBlockPartial_week {p : RemProject} {s k : Nat} :
    ∀ e ∈ bucketBlockPartial p s k, s ≤ e.week ∧ e.week ≤ s + (k - 1) := by
  intro e he
  rcases List.mem_cons.mp he with h1 | h2
  · subst h1; exact ⟨Nat.le_refl _, Nat.le_add_right _ _⟩
  · simp only [List.mem_map, List.mem_range] at h2
    obtain ⟨off, hoff, he2⟩ := h2
    subst he2
    simp
    omega

theorem mapIf_week_append (g : WeekEntry → WeekEntry) (w : Nat) :
    ∀ (sched : List WeekEntry) (x : WeekEntry),
      (∀ e ∈ sched, e.week ≠ w) → x.week = w →
      (sched ++ [x]).map (fun e => if e.week == w then g e else e)
        = sched ++ [g x]
  | [], x, _, hx => by simp [hx]
  | e :: es, x, h, hx => by
    have he : e.week ≠ w := h e (List.mem_cons_self e es)
    simp only [List.cons_append, List.map_cons, beq_eq_false_iff_ne.mpr he,
      Bool.false_eq_true, if_false]
    rw [mapIf_week_append g w es x (fun e2 h2 => h e2 (List.mem_cons_of_mem e h2)) hx]

theorem ensureWeek_append {sched : List WeekEntry} {w : Nat}
    (h : ∀ e ∈ sched, e.week ≠ w) :
    ensureWeek sched w = sched ++ [⟨w, [], 0⟩] := by
  rw [ensureWeek, if_neg]
  intro hc
  rw [List.any_eq_true] at hc
  obtain ⟨e, he, hw⟩ := hc
  exact h e he (by simpa using hw)

theorem pushProject_append {sched : List WeekEntry} {w : Nat}
    (h : ∀ e ∈ sched, e.week ≠ w) (fs : List SchedProject) (t : Nat)
    (rec : SchedProject) (hrs : Nat) :
    pushProject (sched ++ [⟨w, fs, t⟩]) w rec hrs
      = sched ++ [⟨w, fs ++ [rec], t + hrs⟩] := by
  rw [pushProject, mapIf_week_append _ w sched ⟨w, fs, t⟩ h rfl]

theorem markOngoing_append {sched : List WeekEntry} {w : Nat}
    (h : ∀ e ∈ sched, e.week ≠ w) (t : Nat) (nm : Str) (wip : Nat) :
    markOngoing (sched ++ [⟨w, [], t⟩]) w nm wip = sched ++ [⟨w, [], t⟩] := by
  rw [markOngoing, mapIf_week_append _ w sched ⟨w, [], t⟩ h rfl]
  rfl

theorem foldRange_projStep (p : RemProject) (cw : Nat)
    (sched : List WeekEntry) (hweeks : ∀ e ∈ sched, e.week < cw) :
    ∀ k, 1 ≤ k → k ≤ p.estimated_weeks →
      (List.range k).foldl (projStep p cw) sched
        = sched ++ bucketBlockPartial p cw k := by
  intro k
  induction k with
  | zero => omega
  | succ n ih =>
    intro h1 hk
    by_cases hn : n = 0
    · subst hn
      have hne : ∀ e ∈ sched, e.week ≠ cw + 0 :=
        fun e he => by have := hweeks e he; omega
      have hr1 : List.range 1 = [0] := rfl
      simp only [hr1, List.foldl_cons, List.foldl_nil, projStep,
        beq_self_eq_true, if_true]
      rw [ensureWeek_append hne, pushProject_append hne]
      simp [bucketBlockPartial]
    · have hn1 : 1 ≤ n := by omega
      rw [List.range_succ, List.foldl_append, ih hn1 (by omega),
        List.foldl_cons, List.foldl_nil, projStep]
      have hne : ∀ e ∈ sched ++ bucketBlockPartial p cw n, e.week ≠ cw + n := by
        intro e he
        rcases List.mem_append.mp he with h2 | h2
        · have := hweeks e h2; omega
        · have := bucketBlockPartial_week e h2; omega
      simp only [beq_eq_false_iff_ne.mpr hn, Bool.false_eq_true, if_false]
      rw [ensureWeek_append hne, markOngoing_append hne]
      rw [List.append_assoc]
      congr 1
      simp only [bucketBlockPartial, Nat.add_sub_cancel, List.cons_append]
      congr 1
      conv_rhs => rw [show n = n - 1 + 1 by omega]
      rw [List.range_succ, List.map_append]
      congr 1
      simp only [List.map_cons, List.map_nil, List.cons.injEq, and_true]
      congr 1
      omega

theorem scheduleProject_eq {sched : List WeekEntry} {cw : Nat}
    {p : RemProject} (hd : 1 ≤ p.estimated_weeks)
    (h : ∀ e ∈ sched, e.week < cw) :
    scheduleProject sched cw p = sched ++ bucketBlock p cw := by
  rw [scheduleProject,
    foldRange_projStep p cw sched h p.estimated_weeks hd (Nat.le_refl _)]
  rfl

theorem schedLoop_eq (wa req : Nat) :
    ∀ (ps : List RemProject) (cw : Nat) (sched : List WeekEntry) (cnt : Nat),
      (∀ p ∈ ps, 1 ≤ p.estimated_weeks) →
      (∀ e ∈ sched, e.week < cw) →
      ps.length + cnt ≤ req →
      schedLoop wa req ps cw sched cnt
        = sched ++ bucketsOf (specPlace ps cw wa)
  | [], cw, sched, cnt, _, _, _ => by simp [schedLoop, specPlace, bucketsOf]
  | p :: rest, cw, sched, cnt, hd, hw, hlen => by
    have hd1 : 1 ≤ p.estimated_weeks := hd p (List.mem_cons_self p rest)
    have hdrest : ∀ q ∈ rest, 1 ≤ q.estimated_weeks :=
      fun q hq => hd q (List.mem_cons_of_mem p hq)
    rw [schedLoop, specPlace]
    by_cases hfit : wa < cw + p.estimated_weeks - 1
    · rw [if_pos hfit, if_pos hfit]
      exact schedLoop_eq wa req rest cw sched cnt hdrest hw
        (by simp at hlen ⊢; omega)
    · rw [if_neg hfit, if_neg hfit]
      have hsp := scheduleProject_eq hd1 hw
      by_cases hb1 : req ≤ cnt + 1
      · have hrest : rest = [] := by
          rw [List.length_cons] at hlen
          exact List.length_eq_zero.mp (by omega)
        subst hrest
        rw [if_pos (by simp [hb1])]
        rw [hsp]
        simp [bucketsOf, specPlace]
      · by_cases hb2 : wa < cw + p.estimated_weeks
        · rw [if_pos (by simp [hb2])]
          rw [hsp, specPlace_nil_of_overflow rest (cw + p.estimated_weeks)
            hdrest hb2]
          simp [bucketsOf]
        · rw [if_neg (by simp [hb1, hb2])]
          rw [schedLoop_eq wa req rest (cw + p.estimated_weeks)
            (scheduleProject sched cw p) (cnt + 1) hdrest ?_ ?_]
          · rw [hsp, List.append_assoc]
            congr 1
          · intro e he
            rw [hsp] at he
            rcases List.mem_append.mp he with h2 | h2
            · have := hw e h2; omega
            · exact (bucketBlock_week_lt hd1 e h2).2
          · rw [List.length_cons] at hlen; omega

/-- C2: for positive durations the scheduler takes the first
required_count projects, sorts them by duration descending (stably) and
walks the spec's week cursor, dropping any project that would overrun
weeks_available and otherwise occupying its duration in consecutive weeks;
the feasibility flag equals the comparison of the unconstrained duration
sum of the first required_count projects against weeks_available,
independent of placement.  On projects of 3, 1 and 2 weeks with 4 weeks
available and required_count 3 the flag is false and the 2-week project is
dropped; on two 1-week projects both are placed in weeks 1 and 2 and the
flag is true. -/
theorem weekly_scheduler_greedy_placement :
    (∀ (ps : List RemProject) (days req : Nat),
      (∀ p ∈ ps, 1 ≤ p.estimated_weeks) →
      createWeeklySchedule ps days req
        = bucketsOf (specPlace (sortByWeeksDesc (ps.take req)) 1
            (weeksAvailable days)))
    ∧ (∀ (ps : List RemProject) (req wa : Nat),
        timelineFeasible ps req wa = true ↔
          ((ps.take req).map RemProject.estimated_weeks).sum ≤ wa)
    ∧ (weeksAvailable 28 = 4
        ∧ timelineFeasible exSched1 3 (weeksAvailable 28) = false
        ∧ (∀ e ∈ createWeeklySchedule exSched1 28 3,
            ∀ q ∈ e.focus_projects, q.name ≠ str "C")
        ∧ (createWeeklySchedule exSched1 28 3).map WeekEntry.week
            = [1, 2, 3, 4])
    ∧ (timelineFeasible exSched2 2 (weeksAvailable 28) = true
        ∧ createWeeklySchedule exSched2 28 2
            = [⟨1, [⟨str "A", 25, "easy", 1, 1⟩], 25⟩,
               ⟨2, [⟨str "B", 20, "easy", 1, 1⟩], 20⟩]) := by
  refine ⟨?_, ?_, by decide, by decide⟩
  · intro ps days req hd
    rw [createWeeklySchedule]
    by_cases hemp : ps.isEmpty
    · rw [if_pos hemp]
      have hnil : ps = [] := List.isEmpty_iff.mp hemp
      subst hnil
      simp [sortByWeeksDesc, specPlace, bucketsOf]
    · rw [if_neg hemp]
      rw [schedLoop_eq (weeksAvailable days) req
        (sortByWeeksDesc (ps.take req)) 1 [] 0
        (fun q hq => hd q (List.take_subset req ps (sortByWeeksDesc_mem hq)))
        (by intro e he; cases he)
        (by rw [sortByWeeksDesc_length, List.length_take]; omega)]
      simp
  · intro ps req wa
    simp [timelineFeasible, totalWeeksNeeded]

/-- C2 witness: the general placement refinement at the first concrete
input, hypotheses discharged by evaluation. -/
theorem weekly_scheduler_greedy_placement_witness :
    createWeeklySchedule exSched1 28 3
      = bucketsOf (specPlace (sortByWeeksDesc (exSched1.take 3)) 1
          (weeksAvailable 28)) :=
  weekly_scheduler_greedy_placement.1 exSched1 28 3 (by decide)
